import Mathlib

/-!
Verification development for the real-time core of a stereo delay effect
(Source/DelayLine.cpp, Source/Tempo.cpp, Source/Measurement.h, Source/DSP.h,
Source/Parameters.cpp, Source/PluginProcessor.cpp).

Machine floats/doubles are modelled by exact arithmetic: `ℚ` for the signal
path and the tempo clock, `ℝ` where transcendental functions appear (the
equal-power panner's cos/sin and the one-pole smoothing coefficient's exp).
Stateful C++ objects become structures with explicit state passing.
-/

/-! ## DelayLine (Source/DelayLine.h / DelayLine.cpp)

`buffer` models the owned raw float array, `bufferLength` the C++ `int`
capacity, `writeIndex` the C++ `int` write cursor. -/

structure DelayLine where
  buffer : Array ℚ
  bufferLength : ℤ
  writeIndex : ℤ
deriving Repr, DecidableEq

/-- The member defaults from DelayLine.h: null buffer, `bufferLength = 0`,
`writeIndex = 0`. -/
def DelayLine.init : DelayLine := ⟨#[], 0, 0⟩

/-- `DelayLine::setMaximumDelayInSamples` (DelayLine.cpp lines 18-27):
pad by 2 samples, reallocate only when growing.  The fresh C++ allocation is
uninitialized memory; it is modelled as zeros (callers must `reset` before
use, which overwrites every slot anyway). -/
def DelayLine.setMaximumDelayInSamples (d : DelayLine) (maxLengthInSamples : ℤ) : DelayLine :=
  let paddedLength := maxLengthInSamples + 2
  if d.bufferLength < paddedLength then
    { d with bufferLength := paddedLength
             buffer := Array.mkArray paddedLength.toNat 0 }
  else d

/-- `DelayLine::reset` (DelayLine.cpp lines 30-37): cursor to the slot before
index 0, every slot cleared to silence. -/
def DelayLine.reset (d : DelayLine) : DelayLine :=
  { d with writeIndex := d.bufferLength - 1
           buffer := Array.mkArray d.bufferLength.toNat 0 }

/-- `DelayLine::write` (DelayLine.cpp lines 40-50): advance the cursor,
wrap at `bufferLength`, store the sample.  `Array.setD` models the in-bounds
store `buffer[size_t(writeIndex)] = input`. -/
def DelayLine.write (d : DelayLine) (input : ℚ) : DelayLine :=
  let wi := d.writeIndex + 1
  let wi2 := if wi ≥ d.bufferLength then 0 else wi
  { d with writeIndex := wi2
           buffer := d.buffer.setD wi2.toNat input }

/-- The nested wrap-around adjustment of `DelayLine::read`
(DelayLine.cpp lines 69-80): add `bufferLength` to D, and conditionally to
C, B, A, each only when the enclosing index was negative. -/
def wrapReadIndices (L a b c d : ℤ) : ℤ × ℤ × ℤ × ℤ :=
  if d < 0 then
    let d2 := d + L
    if c < 0 then
      let c2 := c + L
      if b < 0 then
        let b2 := b + L
        if a < 0 then (a + L, b2, c2, d2)
        else (a, b2, c2, d2)
      else (a, b, c2, d2)
    else (a, b, c, d2)
  else (a, b, c, d)

/-- The four read indices of `DelayLine::read` (DelayLine.cpp lines 58-80).
`int(delayInSamples)` truncates toward zero; on the read precondition's
domain `delayInSamples ≥ 1` truncation coincides with the floor used here. -/
def DelayLine.readIndices (d : DelayLine) (delayInSamples : ℚ) : ℤ × ℤ × ℤ × ℤ :=
  let integerDelay : ℤ := ⌊delayInSamples⌋
  let readIndexA := d.writeIndex - integerDelay + 1
  wrapReadIndices d.bufferLength readIndexA (readIndexA - 1) (readIndexA - 2) (readIndexA - 3)

/-- The four samples fetched by `DelayLine::read` (DelayLine.cpp lines 83-86).
`Array.getD` models the in-bounds load `buffer[size_t(readIndex)]`. -/
def DelayLine.fetched (d : DelayLine) (delayInSamples : ℚ) : ℚ × ℚ × ℚ × ℚ :=
  let idx := d.readIndices delayInSamples
  (d.buffer.getD idx.1.toNat 0, d.buffer.getD idx.2.1.toNat 0,
   d.buffer.getD idx.2.2.1.toNat 0, d.buffer.getD idx.2.2.2.toNat 0)

/-- The four-point interpolation kernel of `DelayLine::read`
(DelayLine.cpp lines 93-101): centered-difference slopes, Horner-style
nested evaluation, anchored at `sampleB`. -/
def interp4 (sampleA sampleB sampleC sampleD fraction : ℚ) : ℚ :=
  let slope0 := (sampleC - sampleA) * (1/2)
  let slope1 := (sampleD - sampleB) * (1/2)
  let v := sampleB - sampleC
  let w := slope0 + v
  let a := w + v + slope1
  let b := w + a
  let stage1 := a * fraction - b
  let stage2 := stage1 * fraction + slope0
  stage2 * fraction + sampleB

/-- `DelayLine::read` (DelayLine.cpp lines 53-102). -/
def DelayLine.read (d : DelayLine) (delayInSamples : ℚ) : ℚ :=
  let s := d.fetched delayInSamples
  interp4 s.1 s.2.1 s.2.2.1 s.2.2.2 (delayInSamples - (⌊delayInSamples⌋ : ℚ))

/-- Writing a whole list of samples in order, oldest first. -/
def DelayLine.writeList (d : DelayLine) (xs : List ℚ) : DelayLine :=
  xs.foldl DelayLine.write d

/-! ## Tempo (Source/Tempo.h / Tempo.cpp) -/

structure Tempo where
  bpm : ℚ
deriving Repr, DecidableEq

/-- `pos.getBpm()` of a `juce::AudioPlayHead::PositionInfo`: an optional BPM. -/
structure PositionInfo where
  bpmValue : Option ℚ
deriving Repr, DecidableEq

/-- A `juce::AudioPlayHead` as seen by `Tempo::update`: `getPosition()` is an
optional `PositionInfo`. -/
structure PlayHead where
  position : Option PositionInfo
deriving Repr, DecidableEq

/-- `Tempo::getTempo` (Tempo.h lines 29-32). -/
def Tempo.getTempo (t : Tempo) : ℚ := t.bpm

/-- `Tempo::reset` (Tempo.cpp lines 48-51). -/
def Tempo.reset (_t : Tempo) : Tempo := ⟨120⟩

/-- `Tempo::update` (Tempo.cpp lines 53-71): start from the default via
`reset()`, then override only when the playhead, its position, and the
position's BPM are all present. -/
def Tempo.update (t : Tempo) (playhead : Option PlayHead) : Tempo :=
  let t1 := t.reset
  match playhead with
  | none => t1
  | some ph =>
    match ph.position with
    | none => t1
    | some pos =>
      match pos.bpmValue with
      | none => t1
      | some b => { t1 with bpm := b }

/-- The 16-entry table `noteLengthMultipliers` (Tempo.cpp lines 28-46),
in quarter-note units. -/
def noteLengthMultipliers : List ℚ :=
  [0.125, 0.5/3, 0.1875, 0.25, 1/3, 0.375, 0.5, 2/3, 0.75, 1, 4/3, 1.5, 2, 8/3, 3, 4]

/-- `Tempo::getMillisecondsForNoteLength` (Tempo.cpp lines 73-80):
`60000 * multiplier / bpm`, no bounds check (caller keeps index in 0..15). -/
def Tempo.getMillisecondsForNoteLength (t : Tempo) (index : ℕ) : ℚ :=
  60000 * noteLengthMultipliers.getD index 0 / t.bpm

/-! ## Measurement (Source/Measurement.h)

Single-threaded semantics of the atomic peak tracker: on one thread the
compare-exchange loop of `updateIfGreater` behaves as a pure conditional
replace, and `readAndReset`'s exchange returns the old value and stores 0. -/

structure Measurement where
  value : ℚ
deriving Repr, DecidableEq

/-- `Measurement::reset` (Measurement.h lines 26-29). -/
def Measurement.reset (_m : Measurement) : Measurement := ⟨0⟩

/-- `Measurement::updateIfGreater` (Measurement.h lines 33-39), single-thread
semantics of the CAS loop: replace only when strictly greater. -/
def Measurement.updateIfGreater (m : Measurement) (newValue : ℚ) : Measurement :=
  if newValue > m.value then ⟨newValue⟩ else m

/-- `Measurement::readAndReset` (Measurement.h lines 43-46), single-thread
semantics of the exchange: return the stored value, leave 0 behind. -/
def Measurement.readAndReset (m : Measurement) : ℚ × Measurement :=
  (m.value, ⟨0⟩)

/-! ## Claim theorems (first group) -/

/-- C2 counterexample: a tempo state of 140 BPM (reachable by an update from a
transport reporting 140) is NOT retained across an update with a null
playhead — `Tempo::update` resets to the default 120 first, so `getTempo`
afterwards returns 120, not the 140 it returned before the call. -/
theorem tempo_update_retained_counterexample :
    (((Tempo.mk 120).update (some ⟨some ⟨some 140⟩⟩)).getTempo = 140)
    ∧ ((((Tempo.mk 120).update (some ⟨some ⟨some 140⟩⟩)).update none).getTempo ≠ 140) := by
  decide

/-- C2 (amended): calling `Tempo::update` with no transport information (null
playhead, absent position, or a position carrying no tempo) always leaves the
BPM at the default 120 — the method resets to the default before consulting
the transport, so the previous value is retained only when it was already
the default. -/
theorem tempo_update_no_transport_default (b : ℚ) (playhead : Option PlayHead)
    (h : playhead = none
       ∨ (∃ ph, playhead = some ph ∧ ph.position = none)
       ∨ (∃ ph pos, playhead = some ph ∧ ph.position = some pos ∧ pos.bpmValue = none)) :
    ((Tempo.mk b).update playhead).getTempo = 120 := by
  rcases h with h | ⟨ph, rfl, hpos⟩ | ⟨ph, pos, rfl, hpos, hbpm⟩
  · subst h; rfl
  · simp [Tempo.update, Tempo.reset, Tempo.getTempo, hpos]
  · simp [Tempo.update, Tempo.reset, Tempo.getTempo, hpos, hbpm]

/-- Witness for the amended C2, at prior BPM 140 and a null playhead. -/
theorem tempo_update_no_transport_default_witness :
    ((Tempo.mk 140).update none).getTempo = 120 :=
  tempo_update_no_transport_default 140 none (Or.inl rfl)

/-- C7: for every index in [0, 15] and positive BPM,
`getMillisecondsForNoteLength` returns `60000 × multiplier[index] / bpm`;
at index 9 (quarter note) with BPM 120 it returns exactly 500 ms, and
halving the BPM exactly doubles the result. -/
theorem tempo_milliseconds_for_note_length (bpm : ℚ) (index : ℕ)
    (hbpm : 0 < bpm) (hindex : index ≤ 15) :
    (Tempo.mk bpm).getMillisecondsForNoteLength index
      = 60000 * noteLengthMultipliers.getD index 0 / bpm
    ∧ (Tempo.mk 120).getMillisecondsForNoteLength 9 = 500
    ∧ (Tempo.mk (bpm / 2)).getMillisecondsForNoteLength index
      = 2 * (Tempo.mk bpm).getMillisecondsForNoteLength index := by
  refine ⟨rfl, by norm_num [Tempo.getMillisecondsForNoteLength, noteLengthMultipliers], ?_⟩
  have hb : bpm ≠ 0 := ne_of_gt hbpm
  unfold Tempo.getMillisecondsForNoteLength
  field_simp
  ring

/-- Witness for C7 at index 9 and BPM 120. -/
theorem tempo_milliseconds_for_note_length_witness :
    0 < (120 : ℚ) ∧ (9 : ℕ) ≤ 15
    ∧ ((Tempo.mk 120).getMillisecondsForNoteLength 9
        = 60000 * noteLengthMultipliers.getD 9 0 / 120
      ∧ (Tempo.mk 120).getMillisecondsForNoteLength 9 = 500
      ∧ (Tempo.mk ((120 : ℚ) / 2)).getMillisecondsForNoteLength 9
        = 2 * (Tempo.mk 120).getMillisecondsForNoteLength 9) :=
  ⟨by norm_num, by norm_num, tempo_milliseconds_for_note_length 120 9 (by norm_num) (by norm_num)⟩

/-- C8: single-threaded behaviour of the peak tracker: `updateIfGreater v`
leaves `max previous v` stored; `readAndReset` returns the stored value and
leaves 0; and from a reset state, writing 0.2, 0.9, 0.5 then draining returns
0.9, and a second drain with no intervening writes returns 0.0. -/
theorem measurement_peak_tracker_spec :
    (∀ (m : Measurement) (v : ℚ), (m.updateIfGreater v).value = max m.value v)
    ∧ (∀ m : Measurement, m.readAndReset.1 = m.value ∧ m.readAndReset.2.value = 0)
    ∧ ((((Measurement.mk 7).reset.updateIfGreater 0.2).updateIfGreater 0.9).updateIfGreater
        0.5).readAndReset.1 = 0.9
    ∧ ((((Measurement.mk 7).reset.updateIfGreater 0.2).updateIfGreater 0.9).updateIfGreater
        0.5).readAndReset.2.readAndReset.1 = 0 := by
  refine ⟨?_, fun m => ⟨rfl, rfl⟩,
    by norm_num [Measurement.reset, Measurement.updateIfGreater, Measurement.readAndReset],
    by norm_num [Measurement.reset, Measurement.updateIfGreater, Measurement.readAndReset]⟩
  intro m v
  unfold Measurement.updateIfGreater
  rcases le_or_lt v m.value with h | h
  · simp [not_lt.mpr h, max_eq_left h]
  · simp [h, max_eq_right (le_of_lt h)]

/-! ## Equal-power panner (Source/DSP.h)

The source's constant `0.7853981633974483f` is the float closest to π/4 (the
header comment states the intent: `constant 0.7853981633974483f = pi / 4`);
the real-number model uses π/4 itself.  The C++ function writes the two gains
through references; here it returns the pair (left, right). -/

/-- `panningEqualPower` (DSP.h lines 24-35): map panning in [-1, 1] linearly
to an angle in [0, π/2]; gains are its cosine (left) and sine (right). -/
noncomputable def panningEqualPower (panning : ℝ) : ℝ × ℝ :=
  let x := Real.pi / 4 * (panning + 1)
  (Real.cos x, Real.sin x)

/-! ## Delay-time one-pole smoother (Source/Parameters.cpp) -/

/-- The coefficient computed in `Parameters::prepareToPlay`
(Parameters.cpp line 222): `coeff = 1 - exp(-1 / (0.2 * sampleRate))`. -/
noncomputable def delayTimeSmoothingCoeff (sampleRate : ℝ) : ℝ :=
  1 - Real.exp (-1 / (0.2 * sampleRate))

/-- One step of the delay-time smoother in `Parameters::smoothen`
(Parameters.cpp line 288): `delayTime += (targetDelayTime - delayTime) * coeff`. -/
def smoothenDelayTime (delayTime targetDelayTime coeff : ℝ) : ℝ :=
  delayTime + (targetDelayTime - delayTime) * coeff

/-! ## Delay-time selection and capacity (Source/PluginProcessor.cpp) -/

/-- `Parameters::minDelayTime` (Parameters.h line 56), in milliseconds. -/
def minDelayTime : ℚ := 5

/-- `Parameters::maxDelayTime` (Parameters.h line 57), in milliseconds. -/
def maxDelayTime : ℚ := 5000

/-- The capacity computation of `DelayAudioProcessor::prepareToPlay`
(PluginProcessor.cpp lines 118-119): `int(ceil(maxDelayTime / 1000 * sampleRate))`. -/
def maxDelayInSamples (sampleRate : ℚ) : ℤ :=
  ⌈maxDelayTime / 1000 * sampleRate⌉

/-- The tempo-synced delay time clamp of `DelayAudioProcessor::processBlock`
(PluginProcessor.cpp lines 187-190): clamp to `maxDelayTime` from above only. -/
def clampedSyncedTime (t : Tempo) (delayNote : ℕ) : ℚ :=
  let syncedTime := t.getMillisecondsForNoteLength delayNote
  if syncedTime > maxDelayTime then maxDelayTime else syncedTime

/-- The per-sample delay-time selection (PluginProcessor.cpp line 215):
tempo-synced time when `tempoSync` is set, else the smoothed manual time. -/
def selectDelayTime (tempoSync : Bool) (syncedTime delayTime : ℚ) : ℚ :=
  if tempoSync then syncedTime else delayTime

/-- Milliseconds to samples (PluginProcessor.cpp line 216):
`delayInSamples = delayTime / 1000 * sampleRate`. -/
def delayTimeToSamples (delayTime sampleRate : ℚ) : ℚ :=
  delayTime / 1000 * sampleRate

/-! ## Claim theorems (second group) -/

/-- C6: the equal-power panner is pure and, for every pan value in [-1, 1],
satisfies left² + right² = 1; at -1 the gains are (1, 0), at 1 they are
(0, 1), and at 0 both gains equal √2/2. -/
theorem panning_equal_power_law (x : ℝ) (h1 : -1 ≤ x) (h2 : x ≤ 1) :
    (panningEqualPower x).1 ^ 2 + (panningEqualPower x).2 ^ 2 = 1
    ∧ panningEqualPower (-1) = (1, 0)
    ∧ panningEqualPower 1 = (0, 1)
    ∧ (panningEqualPower 0).1 = Real.sqrt 2 / 2
    ∧ (panningEqualPower 0).2 = Real.sqrt 2 / 2 := by
  unfold panningEqualPower
  refine ⟨Real.cos_sq_add_sin_sq _, ?_, ?_, ?_, ?_⟩
  · have hx : Real.pi / 4 * (-1 + 1) = 0 := by ring
    simp [hx]
  · have hx : Real.pi / 4 * (1 + 1) = Real.pi / 2 := by ring
    simp [hx, Real.cos_pi_div_two, Real.sin_pi_div_two]
  · have hx : Real.pi / 4 * (0 + 1) = Real.pi / 4 := by ring
    simp [hx, Real.cos_pi_div_four]
  · have hx : Real.pi / 4 * (0 + 1) = Real.pi / 4 := by ring
    simp [hx, Real.sin_pi_div_four]

/-- Witness for C6 at center pan (x = 0). -/
theorem panning_equal_power_law_witness :
    -1 ≤ (0 : ℝ) ∧ (0 : ℝ) ≤ 1
    ∧ ((panningEqualPower 0).1 ^ 2 + (panningEqualPower 0).2 ^ 2 = 1
      ∧ panningEqualPower (-1) = (1, 0)
      ∧ panningEqualPower 1 = (0, 1)
      ∧ (panningEqualPower 0).1 = Real.sqrt 2 / 2
      ∧ (panningEqualPower 0).2 = Real.sqrt 2 / 2) :=
  ⟨by norm_num, by norm_num, panning_equal_power_law 0 (by norm_num) (by norm_num)⟩

/-- C5: for every positive sample rate, the one-pole coefficient
`1 - exp(-1/(0.2·sampleRate))` lies strictly between 0 and 1, and one step of
`current += (target - current) · coeff` moves the current value monotonically
toward the fixed target without overshooting: the distance to the target is
non-increasing and the new value stays between the old value and the target. -/
theorem delay_time_smoother_no_overshoot (sampleRate current target : ℝ)
    (hsr : 0 < sampleRate) :
    0 < delayTimeSmoothingCoeff sampleRate
    ∧ delayTimeSmoothingCoeff sampleRate < 1
    ∧ |smoothenDelayTime current target (delayTimeSmoothingCoeff sampleRate) - target|
        ≤ |current - target|
    ∧ (current ≤ target →
        current ≤ smoothenDelayTime current target (delayTimeSmoothingCoeff sampleRate)
        ∧ smoothenDelayTime current target (delayTimeSmoothingCoeff sampleRate) ≤ target)
    ∧ (target ≤ current →
        target ≤ smoothenDelayTime current target (delayTimeSmoothingCoeff sampleRate)
        ∧ smoothenDelayTime current target (delayTimeSmoothingCoeff sampleRate) ≤ current) := by
  have hexp_pos : 0 < Real.exp (-1 / (0.2 * sampleRate)) := Real.exp_pos _
  have harg : -1 / (0.2 * sampleRate) < 0 := by
    apply div_neg_of_neg_of_pos <;> nlinarith
  have hexp_lt : Real.exp (-1 / (0.2 * sampleRate)) < 1 := by
    rw [Real.exp_lt_one_iff]
    exact harg
  have hc0 : 0 < delayTimeSmoothingCoeff sampleRate := by
    unfold delayTimeSmoothingCoeff; linarith
  have hc1 : delayTimeSmoothingCoeff sampleRate < 1 := by
    unfold delayTimeSmoothingCoeff; linarith
  set c := delayTimeSmoothingCoeff sampleRate with hc
  have hstep : smoothenDelayTime current target c - target = (current - target) * (1 - c) := by
    unfold smoothenDelayTime; ring
  refine ⟨hc0, hc1, ?_, ?_, ?_⟩
  · rw [hstep, abs_mul, abs_of_nonneg (by linarith : (0:ℝ) ≤ 1 - c)]
    calc |current - target| * (1 - c) ≤ |current - target| * 1 := by
          apply mul_le_mul_of_nonneg_left (by linarith) (abs_nonneg _)
      _ = |current - target| := mul_one _
  · intro h
    constructor <;> (unfold smoothenDelayTime; nlinarith)
  · intro h
    constructor <;> (unfold smoothenDelayTime; nlinarith)

/-- Witness for C5 at sample rate 1, current 0, target 1. -/
theorem delay_time_smoother_no_overshoot_witness :
    0 < (1 : ℝ)
    ∧ (0 < delayTimeSmoothingCoeff 1
      ∧ delayTimeSmoothingCoeff 1 < 1
      ∧ |smoothenDelayTime 0 1 (delayTimeSmoothingCoeff 1) - 1| ≤ |(0 : ℝ) - 1|
      ∧ ((0 : ℝ) ≤ 1 →
          (0 : ℝ) ≤ smoothenDelayTime 0 1 (delayTimeSmoothingCoeff 1)
          ∧ smoothenDelayTime 0 1 (delayTimeSmoothingCoeff 1) ≤ 1)
      ∧ ((1 : ℝ) ≤ 0 →
          (1 : ℝ) ≤ smoothenDelayTime 0 1 (delayTimeSmoothingCoeff 1)
          ∧ smoothenDelayTime 0 1 (delayTimeSmoothingCoeff 1) ≤ 0)) :=
  ⟨by norm_num, delay_time_smoother_no_overshoot 1 0 1 (by norm_num)⟩

/-! ## Helper lemmas about integer wrap-around and array access -/

theorem emod_eq_self_of_bounds (L x : ℤ) (h0 : 0 ≤ x) (hL : x < L) : x % L = x :=
  Int.emod_eq_of_lt h0 hL

theorem emod_eq_add_of_bounds (L x : ℤ) (h0 : -L ≤ x) (hL : x < 0) : x % L = x + L := by
  have h1 : (x + L * 1) % L = x % L := Int.add_mul_emod_self_left x L 1
  rw [mul_one] at h1
  have h2 : (x + L) % L = x + L := Int.emod_eq_of_lt (by omega) (by omega)
  rw [← h1, h2]

theorem getD_setD_self (a : Array ℚ) (i : ℕ) (x : ℚ) (h : i < a.size) :
    (a.setD i x).getD i 0 = x := by
  simp [Array.getD_eq_get?, Array.getElem?_setD_eq a h x]

theorem getD_setD_ne (a : Array ℚ) (i j : ℕ) (x : ℚ) (hne : i ≠ j) :
    (a.setD i x).getD j 0 = a.getD j 0 := by
  unfold Array.setD
  split
  · next h =>
      simp only [Array.getD_eq_get?]
      rw [Array.getElem?_set_ne a ⟨i, h⟩ x hne]
  · rfl

/-- The nested wrap-around of `DelayLine::read` computes exactly the
Euclidean remainder of each raw index by `bufferLength`, given the read
precondition and a write cursor inside the buffer.  The nesting is sound
because the four raw indices increase from D to A, so an inner (larger)
index can be negative only when all outer (smaller) ones are. -/
theorem wrapReadIndices_eq_emod (L wi iD : ℤ)
    (hwi0 : 0 ≤ wi) (hwiL : wi < L) (h1 : 1 ≤ iD) (h2 : iD ≤ L - 2) :
    wrapReadIndices L (wi - iD + 1) (wi - iD + 1 - 1) (wi - iD + 1 - 2) (wi - iD + 1 - 3)
      = ((wi - iD + 1) % L, (wi - iD + 1 - 1) % L,
         (wi - iD + 1 - 2) % L, (wi - iD + 1 - 3) % L) := by
  unfold wrapReadIndices
  split_ifs with hD hC hB hA <;> simp only [Prod.mk.injEq] <;> refine ⟨?_, ?_, ?_, ?_⟩
  · exact (emod_eq_add_of_bounds _ _ (by omega) (by omega)).symm
  · exact (emod_eq_add_of_bounds _ _ (by omega) (by omega)).symm
  · exact (emod_eq_add_of_bounds _ _ (by omega) (by omega)).symm
  · exact (emod_eq_add_of_bounds _ _ (by omega) (by omega)).symm
  · exact (emod_eq_self_of_bounds _ _ (by omega) (by omega)).symm
  · exact (emod_eq_add_of_bounds _ _ (by omega) (by omega)).symm
  · exact (emod_eq_add_of_bounds _ _ (by omega) (by omega)).symm
  · exact (emod_eq_add_of_bounds _ _ (by omega) (by omega)).symm
  · exact (emod_eq_self_of_bounds _ _ (by omega) (by omega)).symm
  · exact (emod_eq_self_of_bounds _ _ (by omega) (by omega)).symm
  · exact (emod_eq_add_of_bounds _ _ (by omega) (by omega)).symm
  · exact (emod_eq_add_of_bounds _ _ (by omega) (by omega)).symm
  · exact (emod_eq_self_of_bounds _ _ (by omega) (by omega)).symm
  · exact (emod_eq_self_of_bounds _ _ (by omega) (by omega)).symm
  · exact (emod_eq_self_of_bounds _ _ (by omega) (by omega)).symm
  · exact (emod_eq_add_of_bounds _ _ (by omega) (by omega)).symm
  · exact (emod_eq_self_of_bounds _ _ (by omega) (by omega)).symm
  · exact (emod_eq_self_of_bounds _ _ (by omega) (by omega)).symm
  · exact (emod_eq_self_of_bounds _ _ (by omega) (by omega)).symm
  · exact (emod_eq_self_of_bounds _ _ (by omega) (by omega)).symm

/-- C10: under the read precondition `1 ≤ delayInSamples ≤ bufferLength - 2`
and a write cursor in `[0, bufferLength)`, the nested wrap-around adjustment
of `DelayLine::read` leaves all four read indices in `[0, bufferLength)`, so
every one of the four buffer accesses is in bounds. -/
theorem read_indices_in_bounds (dl : DelayLine) (delayInSamples : ℚ)
    (h1 : 1 ≤ delayInSamples)
    (h2 : delayInSamples ≤ (dl.bufferLength : ℚ) - 2)
    (hwi0 : 0 ≤ dl.writeIndex) (hwiL : dl.writeIndex < dl.bufferLength) :
    (0 ≤ (dl.readIndices delayInSamples).1
      ∧ (dl.readIndices delayInSamples).1 < dl.bufferLength)
    ∧ (0 ≤ (dl.readIndices delayInSamples).2.1
      ∧ (dl.readIndices delayInSamples).2.1 < dl.bufferLength)
    ∧ (0 ≤ (dl.readIndices delayInSamples).2.2.1
      ∧ (dl.readIndices delayInSamples).2.2.1 < dl.bufferLength)
    ∧ (0 ≤ (dl.readIndices delayInSamples).2.2.2
      ∧ (dl.readIndices delayInSamples).2.2.2 < dl.bufferLength) := by
  have hiD1 : (1 : ℤ) ≤ ⌊delayInSamples⌋ := by
    rw [Int.le_floor]; exact_mod_cast h1
  have hiD2 : ⌊delayInSamples⌋ ≤ dl.bufferLength - 2 := by
    have hq : (⌊delayInSamples⌋ : ℚ) ≤ (dl.bufferLength : ℚ) - 2 :=
      le_trans (Int.floor_le _) h2
    exact_mod_cast hq
  have hL : (0 : ℤ) < dl.bufferLength := by omega
  have hrw : dl.readIndices delayInSamples
      = ((dl.writeIndex - ⌊delayInSamples⌋ + 1) % dl.bufferLength,
         (dl.writeIndex - ⌊delayInSamples⌋ + 1 - 1) % dl.bufferLength,
         (dl.writeIndex - ⌊delayInSamples⌋ + 1 - 2) % dl.bufferLength,
         (dl.writeIndex - ⌊delayInSamples⌋ + 1 - 3) % dl.bufferLength) := by
    unfold DelayLine.readIndices
    exact wrapReadIndices_eq_emod dl.bufferLength dl.writeIndex ⌊delayInSamples⌋
      hwi0 hwiL hiD1 hiD2
  rw [hrw]
  have hne : dl.bufferLength ≠ 0 := ne_of_gt hL
  exact ⟨⟨Int.emod_nonneg _ hne, Int.emod_lt_of_pos _ hL⟩,
         ⟨Int.emod_nonneg _ hne, Int.emod_lt_of_pos _ hL⟩,
         ⟨Int.emod_nonneg _ hne, Int.emod_lt_of_pos _ hL⟩,
         ⟨Int.emod_nonneg _ hne, Int.emod_lt_of_pos _ hL⟩⟩

/-- Witness for C10: a concrete 8-slot delay line with the cursor at 3,
read at the fractional delay 5/2. -/
theorem read_indices_in_bounds_witness :
    (1 ≤ (5/2 : ℚ)
      ∧ (5/2 : ℚ) ≤ (((⟨Array.mkArray 8 0, 8, 3⟩ : DelayLine).bufferLength : ℚ)) - 2
      ∧ 0 ≤ (⟨Array.mkArray 8 0, 8, 3⟩ : DelayLine).writeIndex
      ∧ (⟨Array.mkArray 8 0, 8, 3⟩ : DelayLine).writeIndex
          < (⟨Array.mkArray 8 0, 8, 3⟩ : DelayLine).bufferLength)
    ∧ ((0 ≤ ((⟨Array.mkArray 8 0, 8, 3⟩ : DelayLine).readIndices (5/2)).1
      ∧ ((⟨Array.mkArray 8 0, 8, 3⟩ : DelayLine).readIndices (5/2)).1
          < (⟨Array.mkArray 8 0, 8, 3⟩ : DelayLine).bufferLength)
    ∧ (0 ≤ ((⟨Array.mkArray 8 0, 8, 3⟩ : DelayLine).readIndices (5/2)).2.1
      ∧ ((⟨Array.mkArray 8 0, 8, 3⟩ : DelayLine).readIndices (5/2)).2.1
          < (⟨Array.mkArray 8 0, 8, 3⟩ : DelayLine).bufferLength)
    ∧ (0 ≤ ((⟨Array.mkArray 8 0, 8, 3⟩ : DelayLine).readIndices (5/2)).2.2.1
      ∧ ((⟨Array.mkArray 8 0, 8, 3⟩ : DelayLine).readIndices (5/2)).2.2.1
          < (⟨Array.mkArray 8 0, 8, 3⟩ : DelayLine).bufferLength)
    ∧ (0 ≤ ((⟨Array.mkArray 8 0, 8, 3⟩ : DelayLine).readIndices (5/2)).2.2.2
      ∧ ((⟨Array.mkArray 8 0, 8, 3⟩ : DelayLine).readIndices (5/2)).2.2.2
          < (⟨Array.mkArray 8 0, 8, 3⟩ : DelayLine).bufferLength)) :=
  ⟨⟨by norm_num, by norm_num, by norm_num, by norm_num⟩,
   read_indices_in_bounds ⟨Array.mkArray 8 0, 8, 3⟩ (5/2)
     (by norm_num) (by norm_num) (by norm_num) (by norm_num)⟩

/-- The interpolation kernel evaluated at fraction 0 returns the anchor
sample B unchanged. -/
theorem interp4_fraction_zero (a b c d : ℚ) : interp4 a b c d 0 = b := by
  simp [interp4]

/-- The interpolation kernel reproduces affine data exactly: if the four
samples descend by a constant step α from A (newest) to D (oldest), the
cubic collapses to the linear value `b - α·fraction`. -/
theorem interp4_affine (a b c d f α : ℚ)
    (hab : a - b = α) (hbc : b - c = α) (hcd : c - d = α) :
    interp4 a b c d f = b - α * f := by
  have ha : a = b + α := by linarith
  have hc : c = b - α := by linarith
  have hd : d = b - 2 * α := by linarith
  subst ha hc hd
  unfold interp4
  ring

/-- C4: if the four historical samples fetched by `DelayLine::read` lie on an
affine ramp (consecutive write positions differ by the constant α, newest
minus next-oldest), then for every delay in the valid range the cubic
Hermite-style interpolation returns exactly the affine value at the
fractional offset: the anchor sample minus α times the fractional part. -/
theorem cubic_interpolation_exact_on_ramp (dl : DelayLine) (delayInSamples α : ℚ)
    (h1 : 1 ≤ delayInSamples)
    (h2 : delayInSamples ≤ (dl.bufferLength : ℚ) - 2)
    (hab : (dl.fetched delayInSamples).1 - (dl.fetched delayInSamples).2.1 = α)
    (hbc : (dl.fetched delayInSamples).2.1 - (dl.fetched delayInSamples).2.2.1 = α)
    (hcd : (dl.fetched delayInSamples).2.2.1 - (dl.fetched delayInSamples).2.2.2 = α) :
    dl.read delayInSamples
      = (dl.fetched delayInSamples).2.1
          - α * (delayInSamples - (⌊delayInSamples⌋ : ℚ)) := by
  unfold DelayLine.read
  exact interp4_affine _ _ _ _ _ _ hab hbc hcd

theorem emod_sub_cancel (a N L : ℤ) : (a % L - N) % L = (a - N) % L := by
  rw [Int.sub_emod (a % L) N L, Int.emod_emod_of_dvd a dvd_rfl, ← Int.sub_emod]

/-! ## Write-history invariant of the delay buffer -/

/-- State of a delay line of capacity `L` after the samples of `xs` (oldest
first) were written into a configured-and-reset line: the cursor sits at
`(L - 1 + |xs|) mod L`, and every sample young enough not to have been
overwritten yet is stored at its write position modulo `L`. -/
def GoodState (L : ℤ) (xs : List ℚ) (d : DelayLine) : Prop :=
  d.bufferLength = L ∧ (d.buffer.size : ℤ) = L
  ∧ d.writeIndex = (L - 1 + xs.length) % L
  ∧ ∀ i : ℕ, i < xs.length → xs.length ≤ i + L.toNat →
      d.buffer.getD (((i : ℤ) % L).toNat) 0 = xs.getD i 0

theorem goodState_configure_reset (M : ℕ) :
    GoodState ((M : ℤ) + 2) [] ((DelayLine.init.setMaximumDelayInSamples (M : ℤ)).reset) := by
  have hstep : DelayLine.init.setMaximumDelayInSamples (M : ℤ)
      = ⟨Array.mkArray ((M : ℤ) + 2).toNat 0, (M : ℤ) + 2, 0⟩ := by
    unfold DelayLine.setMaximumDelayInSamples DelayLine.init
    rw [if_pos (by omega : (0 : ℤ) < (M : ℤ) + 2)]
  rw [hstep]
  unfold DelayLine.reset GoodState
  refine ⟨rfl, ?_, ?_, ?_⟩
  · simp only [Array.size_mkArray]
    omega
  · simp only [List.length_nil, Nat.cast_zero, add_zero]
    exact (emod_eq_self_of_bounds _ _ (by omega) (by omega)).symm
  · intro i hi
    simp at hi

theorem goodState_write (L : ℤ) (hL : 0 < L) (xs : List ℚ) (d : DelayLine) (x : ℚ)
    (h : GoodState L xs d) : GoodState L (xs ++ [x]) (d.write x) := by
  obtain ⟨hlen, hsize, hwi, hcontent⟩ := h
  have hLne : L ≠ 0 := ne_of_gt hL
  have hwi0 : 0 ≤ d.writeIndex := by rw [hwi]; exact Int.emod_nonneg _ hLne
  have hwiL : d.writeIndex < L := by rw [hwi]; exact Int.emod_lt_of_pos _ hL
  have hkey : (d.writeIndex + 1) % L = (xs.length : ℤ) % L := by
    rw [hwi, Int.emod_add_emod]
    have e : L - 1 + (xs.length : ℤ) + 1 = (xs.length : ℤ) + L * 1 := by ring
    rw [e, Int.add_mul_emod_self_left]
  have hwi2 : (if d.writeIndex + 1 ≥ d.bufferLength then 0 else d.writeIndex + 1)
      = (xs.length : ℤ) % L := by
    rw [hlen]
    split
    · next hge =>
        have hEq : d.writeIndex + 1 = L := by omega
        rw [← hkey, hEq, Int.emod_self]
    · next hlt =>
        rw [← hkey]
        exact (Int.emod_eq_of_lt (by omega) (by omega)).symm
  have hnwi : (d.write x).writeIndex = (xs.length : ℤ) % L := by
    unfold DelayLine.write
    exact hwi2
  have hbuf : (d.write x).buffer
      = d.buffer.setD (((xs.length : ℤ) % L).toNat) x := by
    simp only [DelayLine.write]
    rw [hwi2]
  have hm0 : 0 ≤ (xs.length : ℤ) % L := Int.emod_nonneg _ hLne
  have hmL : (xs.length : ℤ) % L < L := Int.emod_lt_of_pos _ hL
  refine ⟨?_, ?_, ?_, ?_⟩
  · unfold DelayLine.write
    exact hlen
  · rw [hbuf, Array.size_setD]
    exact hsize
  · rw [hnwi]
    simp only [List.length_append, List.length_singleton]
    push_cast
    have e : L - 1 + ((xs.length : ℤ) + 1) = (xs.length : ℤ) + L * 1 := by ring
    rw [e, Int.add_mul_emod_self_left]
  · intro i hi hiL
    simp only [List.length_append, List.length_singleton] at hi hiL
    have hLtoNat : (L.toNat : ℤ) = L := Int.toNat_of_nonneg (le_of_lt hL)
    rcases Nat.lt_succ_iff_lt_or_eq.mp hi with hi' | hi'
    · -- an older sample, not overwritten by this write
      have hne : ((xs.length : ℤ) % L).toNat ≠ ((i : ℤ) % L).toNat := by
        intro heq
        have hmod : (i : ℤ) % L = (xs.length : ℤ) % L := by
          have h1 : (((i : ℤ) % L).toNat : ℤ) = (i : ℤ) % L :=
            Int.toNat_of_nonneg (Int.emod_nonneg _ hLne)
          have h2 : (((xs.length : ℤ) % L).toNat : ℤ) = (xs.length : ℤ) % L :=
            Int.toNat_of_nonneg hm0
          rw [← h1, ← h2, heq]
        have hdvd : L ∣ (xs.length : ℤ) - (i : ℤ) := Int.ModEq.dvd hmod
        have hgap0 : 0 < (xs.length : ℤ) - (i : ℤ) := by omega
        have hgapL : (xs.length : ℤ) - (i : ℤ) < L := by omega
        have := Int.le_of_dvd hgap0 hdvd
        omega
      rw [hbuf, getD_setD_ne _ _ _ _ hne, List.getD_append _ _ _ _ hi']
      exact hcontent i hi' (by omega)
    · -- the sample just written, stored at the new cursor position
      subst hi'
      have hsz : ((xs.length : ℤ) % L).toNat < d.buffer.size := by omega
      rw [hbuf, getD_setD_self _ _ _ hsz,
        List.getD_append_right _ _ _ _ (le_refl _)]
      simp

theorem goodState_writeList (L : ℤ) (hL : 0 < L) (d : DelayLine)
    (h : GoodState L [] d) (xs : List ℚ) : GoodState L xs (d.writeList xs) := by
  induction xs using List.reverseRecOn with
  | nil => exact h
  | append_singleton ys y ih =>
      unfold DelayLine.writeList at ih ⊢
      rw [List.foldl_append]
      exact goodState_write L hL ys _ y ih

/-- C3: for every configured-and-reset delay line (maximum delay `M ≥ 1`,
capacity `M + 2`) and every sequence of written samples, reading at an
integer delay `N` with `1 ≤ N ≤ capacity - 2` and `N <` number of writes
returns exactly the value written `N` writes before the most recent write:
at integer delays the fraction is 0 and the cubic collapses to the anchored
historical sample, with zero interpolation error. -/
theorem delay_line_integer_read_exact (M N : ℕ) (s : List ℚ)
    (hM : 1 ≤ M) (hN1 : 1 ≤ N) (hNM : N ≤ M) (hNs : N < s.length) :
    (((DelayLine.init.setMaximumDelayInSamples (M : ℤ)).reset).writeList s).read (N : ℚ)
      = s.getD (s.length - N - 1) 0 := by
  have hL : (0 : ℤ) < (M : ℤ) + 2 := by omega
  have hgood := goodState_writeList ((M : ℤ) + 2) hL _ (goodState_configure_reset M) s
  obtain ⟨hlen, hsize, hwi, hcontent⟩ := hgood
  set L : ℤ := (M : ℤ) + 2 with hLdef
  set d := ((DelayLine.init.setMaximumDelayInSamples (M : ℤ)).reset).writeList s with hd
  set k := s.length with hk
  have hLne : L ≠ 0 := ne_of_gt hL
  have hwi0 : 0 ≤ d.writeIndex := by rw [hwi]; exact Int.emod_nonneg _ hLne
  have hwiL : d.writeIndex < L := by rw [hwi]; exact Int.emod_lt_of_pos _ hL
  have hfloor : ⌊(N : ℚ)⌋ = (N : ℤ) := Int.floor_natCast N
  have hidx : d.readIndices (N : ℚ)
      = ((d.writeIndex - (N : ℤ) + 1) % L, (d.writeIndex - (N : ℤ) + 1 - 1) % L,
         (d.writeIndex - (N : ℤ) + 1 - 2) % L, (d.writeIndex - (N : ℤ) + 1 - 3) % L) := by
    simp only [DelayLine.readIndices]
    rw [hfloor, hlen]
    exact wrapReadIndices_eq_emod L d.writeIndex (N : ℤ) hwi0 hwiL
      (by exact_mod_cast hN1) (by omega)
  have hread : d.read (N : ℚ)
      = d.buffer.getD (((d.writeIndex - (N : ℤ)) % L).toNat) 0 := by
    simp only [DelayLine.read, DelayLine.fetched, hidx, hfloor]
    have hfrac : (N : ℚ) - (((N : ℤ) : ℚ)) = 0 := by push_cast; ring
    rw [hfrac, interp4_fraction_zero]
    have e : d.writeIndex - (N : ℤ) + 1 - 1 = d.writeIndex - (N : ℤ) := by ring
    rw [e]
  have hik : ((k - N - 1 : ℕ) : ℤ) = (k : ℤ) - N - 1 := by omega
  have hmod : (d.writeIndex - (N : ℤ)) % L = ((k - N - 1 : ℕ) : ℤ) % L := by
    rw [hwi, emod_sub_cancel]
    have e : L - 1 + (k : ℤ) - (N : ℤ) = ((k - N - 1 : ℕ) : ℤ) + L * 1 := by
      rw [hik]; ring
    rw [e, Int.add_mul_emod_self_left]
  rw [hread, hmod]
  exact hcontent (k - N - 1) (by omega) (by omega)

/-- Witness for C3: capacity 3 + 2, writes 1, 2, 3, 4, read at integer
delay 2 returns the value written 2 writes before the last one. -/
theorem delay_line_integer_read_exact_witness :
    1 ≤ (3 : ℕ) ∧ 1 ≤ (2 : ℕ) ∧ (2 : ℕ) ≤ 3 ∧ (2 : ℕ) < ([(1 : ℚ), 2, 3, 4]).length
    ∧ (((DelayLine.init.setMaximumDelayInSamples ((3 : ℕ) : ℤ)).reset).writeList
          [(1 : ℚ), 2, 3, 4]).read (((2 : ℕ)) : ℚ)
        = ([(1 : ℚ), 2, 3, 4]).getD (([(1 : ℚ), 2, 3, 4]).length - 2 - 1) 0 :=
  ⟨by norm_num, by norm_num, by norm_num, by norm_num,
   delay_line_integer_read_exact 3 2 [(1 : ℚ), 2, 3, 4]
     (by norm_num) (by norm_num) (by norm_num) (by norm_num)⟩

/-- Witness for C4: an 8-slot delay line holding the ramp 0..7 with the
cursor at 7, read at delay 5/2 (integer part 2, fraction 1/2). -/
theorem cubic_interpolation_exact_on_ramp_witness :
    1 ≤ (5/2 : ℚ)
    ∧ (5/2 : ℚ) ≤ (((⟨#[0,1,2,3,4,5,6,7], 8, 7⟩ : DelayLine).bufferLength : ℚ)) - 2
    ∧ ((⟨#[0,1,2,3,4,5,6,7], 8, 7⟩ : DelayLine).fetched (5/2)).1
        - ((⟨#[0,1,2,3,4,5,6,7], 8, 7⟩ : DelayLine).fetched (5/2)).2.1 = 1
    ∧ ((⟨#[0,1,2,3,4,5,6,7], 8, 7⟩ : DelayLine).fetched (5/2)).2.1
        - ((⟨#[0,1,2,3,4,5,6,7], 8, 7⟩ : DelayLine).fetched (5/2)).2.2.1 = 1
    ∧ ((⟨#[0,1,2,3,4,5,6,7], 8, 7⟩ : DelayLine).fetched (5/2)).2.2.1
        - ((⟨#[0,1,2,3,4,5,6,7], 8, 7⟩ : DelayLine).fetched (5/2)).2.2.2 = 1
    ∧ (⟨#[0,1,2,3,4,5,6,7], 8, 7⟩ : DelayLine).read (5/2)
        = ((⟨#[0,1,2,3,4,5,6,7], 8, 7⟩ : DelayLine).fetched (5/2)).2.1
            - 1 * ((5/2 : ℚ) - ((⌊(5/2 : ℚ)⌋ : ℚ)) ) := by
  have hfetch : (⟨#[0,1,2,3,4,5,6,7], 8, 7⟩ : DelayLine).fetched (5/2)
      = ((6 : ℚ), (5 : ℚ), (4 : ℚ), (3 : ℚ)) := by
    have hfloor : ⌊(5/2 : ℚ)⌋ = 2 := by norm_num
    unfold DelayLine.fetched DelayLine.readIndices wrapReadIndices
    rw [hfloor]
    norm_num [Int.toNat_ofNat]
    refine ⟨rfl, rfl, rfl, rfl⟩
  have hab : ((⟨#[0,1,2,3,4,5,6,7], 8, 7⟩ : DelayLine).fetched (5/2)).1
      - ((⟨#[0,1,2,3,4,5,6,7], 8, 7⟩ : DelayLine).fetched (5/2)).2.1 = 1 := by
    rw [hfetch]; norm_num
  have hbc : ((⟨#[0,1,2,3,4,5,6,7], 8, 7⟩ : DelayLine).fetched (5/2)).2.1
      - ((⟨#[0,1,2,3,4,5,6,7], 8, 7⟩ : DelayLine).fetched (5/2)).2.2.1 = 1 := by
    rw [hfetch]; norm_num
  have hcd : ((⟨#[0,1,2,3,4,5,6,7], 8, 7⟩ : DelayLine).fetched (5/2)).2.2.1
      - ((⟨#[0,1,2,3,4,5,6,7], 8, 7⟩ : DelayLine).fetched (5/2)).2.2.2 = 1 := by
    rw [hfetch]; norm_num
  exact ⟨by norm_num, by norm_num, hab, hbc, hcd,
    cubic_interpolation_exact_on_ramp ⟨#[0,1,2,3,4,5,6,7], 8, 7⟩ (5/2) 1
      (by norm_num) (by norm_num) hab hbc hcd⟩

/-- C1 counterexample: the per-block loop clamps the tempo-synced delay time
only to the configured maximum, never to a lower bound.  A host transport
reporting 600000 BPM is accepted verbatim by `Tempo::update` (a reachable
tempo state), and with the 1/32-note selection at 48 kHz the resulting delay
(0.0125 ms = 0.6 samples) violates the read precondition `1.0 ≤ delayInSamples`. -/
theorem delay_read_precondition_counterexample :
    (((Tempo.mk 120).update (some ⟨some ⟨some 600000⟩⟩)).getTempo = 600000)
    ∧ ¬ (1 ≤ delayTimeToSamples
          (selectDelayTime true (clampedSyncedTime (Tempo.mk 600000) 0) 100) 48000) := by
  constructor
  · rfl
  · norm_num [delayTimeToSamples, selectDelayTime, clampedSyncedTime, maxDelayTime,
      Tempo.getMillisecondsForNoteLength, noteLengthMultipliers]

/-- C1 (amended): the delay value passed to `DelayLine::read` always satisfies
the upper precondition — the tempo-synced time is clamped to `maxDelayTime`
and the manual time cannot exceed it, so `delayInSamples` never exceeds
`capacity - 2` for the capacity computed in `prepareToPlay` at the same sample
rate.  The lower precondition `1 ≤ delayInSamples` holds only under the extra
assumption that the selected delay time is at least `1000 / sampleRate`
milliseconds (one sample); the code does not enforce this, so a sufficiently
large host BPM (or a sample rate below 200 Hz on the manual path) violates it. -/
theorem delay_read_precondition_amended (sampleRate manualDelayTime : ℚ)
    (tempoSync : Bool) (t : Tempo) (delayNote : ℕ)
    (hsr : 0 < sampleRate)
    (hman_lo : minDelayTime ≤ manualDelayTime)
    (hman_hi : manualDelayTime ≤ maxDelayTime)
    (hlo : 1000 / sampleRate
            ≤ selectDelayTime tempoSync (clampedSyncedTime t delayNote) manualDelayTime) :
    1 ≤ delayTimeToSamples
          (selectDelayTime tempoSync (clampedSyncedTime t delayNote) manualDelayTime) sampleRate
    ∧ delayTimeToSamples
          (selectDelayTime tempoSync (clampedSyncedTime t delayNote) manualDelayTime) sampleRate
        ≤ (((DelayLine.init.setMaximumDelayInSamples (maxDelayInSamples sampleRate)).bufferLength : ℚ))
            - 2 := by
  have hsr' : sampleRate ≠ 0 := ne_of_gt hsr
  set dt := selectDelayTime tempoSync (clampedSyncedTime t delayNote) manualDelayTime with hdt
  have hdt_hi : dt ≤ maxDelayTime := by
    rw [hdt]
    unfold selectDelayTime clampedSyncedTime
    rcases tempoSync with _ | _
    · simpa using hman_hi
    · simp only [if_true]
      split
      · exact le_refl _
      · next hcond => exact le_of_not_lt hcond
  have hcap : (DelayLine.init.setMaximumDelayInSamples (maxDelayInSamples sampleRate)).bufferLength
      = maxDelayInSamples sampleRate + 2 := by
    have hpos : (0 : ℤ) < maxDelayInSamples sampleRate + 2 := by
      have h1 : (0 : ℤ) < maxDelayInSamples sampleRate := by
        rw [maxDelayInSamples, Int.lt_ceil]
        push_cast
        rw [maxDelayTime]
        positivity
      omega
    simp [DelayLine.setMaximumDelayInSamples, DelayLine.init, hpos]
  constructor
  · have h1000 : (1000 : ℚ) ≤ dt * sampleRate := (div_le_iff₀ hsr).mp hlo
    unfold delayTimeToSamples
    rw [div_mul_eq_mul_div, le_div_iff₀ (by norm_num : (0:ℚ) < 1000)]
    linarith
  · rw [hcap]
    push_cast
    have hstep : delayTimeToSamples dt sampleRate
        ≤ maxDelayTime / 1000 * sampleRate := by
      unfold delayTimeToSamples
      apply mul_le_mul_of_nonneg_right _ (le_of_lt hsr)
      exact div_le_div_of_nonneg_right hdt_hi (by norm_num) |>.trans_eq rfl
    have hceil : maxDelayTime / 1000 * sampleRate ≤ (maxDelayInSamples sampleRate : ℚ) :=
      Int.le_ceil _
    linarith

/-- Witness for the amended C1: manual path, 100 ms at 48 kHz. -/
theorem delay_read_precondition_amended_witness :
    0 < (48000 : ℚ) ∧ minDelayTime ≤ (100 : ℚ) ∧ (100 : ℚ) ≤ maxDelayTime
    ∧ ((1000 : ℚ) / 48000
        ≤ selectDelayTime false (clampedSyncedTime (Tempo.mk 120) 9) 100)
    ∧ (1 ≤ delayTimeToSamples
            (selectDelayTime false (clampedSyncedTime (Tempo.mk 120) 9) 100) 48000
      ∧ delayTimeToSamples
            (selectDelayTime false (clampedSyncedTime (Tempo.mk 120) 9) 100) 48000
          ≤ (((DelayLine.init.setMaximumDelayInSamples (maxDelayInSamples 48000)).bufferLength : ℚ))
              - 2) :=
  ⟨by norm_num, by norm_num [minDelayTime], by norm_num [maxDelayTime],
   by norm_num [selectDelayTime], delay_read_precondition_amended 48000 100 false (Tempo.mk 120) 9
     (by norm_num) (by norm_num [minDelayTime]) (by norm_num [maxDelayTime])
     (by norm_num [selectDelayTime])⟩

/-! ## Per-sample processing loop (Source/PluginProcessor.cpp lines 207-265)

The two tone filters are the spec's external collaborator ("two-pole
state-variable filters consumed through a narrow contract"); they are
abstracted as a caller-supplied stateful primitive `applyFilters`, standing
for the low-cut-then-high-cut chain of `processSample(channel, x)` calls on
one channel, with filter state of an arbitrary type `σ` threaded through. -/

/-- The per-sample values produced by `Parameters::smoothen` that the loop
body consumes, plus the selected delay in samples (PluginProcessor.cpp
lines 212-216). -/
structure SampleParams where
  gain : ℚ
  mix : ℚ
  feedback : ℚ
  panL : ℚ
  panR : ℚ
  delayInSamples : ℚ
deriving Repr, DecidableEq

/-- The mutable state of `processBlock` that survives from one sample
iteration to the next: the two delay lines, the two feedback accumulators,
and the (abstracted) filter state. -/
structure ProcState (σ : Type) where
  delayLineL : DelayLine
  delayLineR : DelayLine
  feedbackL : ℚ
  feedbackR : ℚ
  filters : σ

/-- One iteration of the per-sample loop (PluginProcessor.cpp lines 211-264):
fold the dry pair to mono, write each delay line with that channel's pan gain
plus the OPPOSITE channel's feedback, read back the wet samples, update the
feedback through the filter chain, mix dry + wet · mix, apply gain. -/
def processSampleStep {σ : Type} (applyFilters : σ → ℕ → ℚ → σ × ℚ)
    (p : SampleParams) (st : ProcState σ) (dryL dryR : ℚ) :
    ProcState σ × ℚ × ℚ :=
  let mono := (dryL + dryR) * (1/2)
  let dlL := st.delayLineL.write (mono * p.panL + st.feedbackR)
  let dlR := st.delayLineR.write (mono * p.panR + st.feedbackL)
  let wetL := dlL.read p.delayInSamples
  let wetR := dlR.read p.delayInSamples
  let fl := applyFilters st.filters 0 (wetL * p.feedback)
  let fr := applyFilters fl.1 1 (wetR * p.feedback)
  let mixL := dryL + wetL * p.mix
  let mixR := dryR + wetR * p.mix
  (⟨dlL, dlR, fl.2, fr.2, fr.1⟩, mixL * p.gain, mixR * p.gain)

/-- Run the loop over a block: each entry of `ins` carries the per-sample
parameter snapshot (the loop calls `smoothen` every iteration, so the
parameters vary per sample) and the dry input pair. -/
def runBlock {σ : Type} (applyFilters : σ → ℕ → ℚ → σ × ℚ) :
    ProcState σ → List (SampleParams × ℚ × ℚ) → ProcState σ × List (ℚ × ℚ)
  | st, [] => (st, [])
  | st, e :: rest =>
    let r := processSampleStep applyFilters e.1 st e.2.1 e.2.2
    let rest2 := runBlock applyFilters r.1 rest
    (rest2.1, r.2 :: rest2.2)

/-- The state initialisation of `prepareToPlay` (PluginProcessor.cpp lines
117-128): both delay lines configured with the same maximum and reset, and
both feedback accumulators zeroed. -/
def prepareState (σ : Type) (maxDelaySamples : ℤ) (f0 : σ) : ProcState σ :=
  ⟨(DelayLine.init.setMaximumDelayInSamples maxDelaySamples).reset,
   (DelayLine.init.setMaximumDelayInSamples maxDelaySamples).reset,
   0, 0, f0⟩

theorem runBlock_append {σ : Type} (F : σ → ℕ → ℚ → σ × ℚ)
    (st : ProcState σ) (xs ys : List (SampleParams × ℚ × ℚ)) :
    runBlock F st (xs ++ ys)
      = ((runBlock F (runBlock F st xs).1 ys).1,
         (runBlock F st xs).2 ++ (runBlock F (runBlock F st xs).1 ys).2) := by
  induction xs generalizing st with
  | nil => simp [runBlock]
  | cons e rest ih => simp [runBlock, ih]

/-- C9: on every iteration of the per-sample loop, the value written into the
left delay line is `mono · panL` plus the right channel's feedback sample
from the previous iteration, and the value written into the right delay line
is `mono · panR` plus the left channel's previous feedback sample, where
`mono` is the average of the two dry inputs; both feedback accumulators start
at zero after `prepareToPlay` (cross-feedback topology). -/
theorem cross_feedback_write_topology {σ : Type} (F : σ → ℕ → ℚ → σ × ℚ)
    (st0 : ProcState σ) (ins : List (SampleParams × ℚ × ℚ)) (i : ℕ)
    (p : SampleParams) (dryL dryR : ℚ)
    (hi : i < ins.length)
    (hget : ins.get ⟨i, hi⟩ = (p, dryL, dryR)) :
    (runBlock F st0 (ins.take (i+1))).1.delayLineL
      = (runBlock F st0 (ins.take i)).1.delayLineL.write
          ((dryL + dryR) * (1/2) * p.panL + (runBlock F st0 (ins.take i)).1.feedbackR)
    ∧ (runBlock F st0 (ins.take (i+1))).1.delayLineR
      = (runBlock F st0 (ins.take i)).1.delayLineR.write
          ((dryL + dryR) * (1/2) * p.panR + (runBlock F st0 (ins.take i)).1.feedbackL)
    ∧ ∀ (m : ℤ) (f0 : σ), (prepareState σ m f0).feedbackL = 0
        ∧ (prepareState σ m f0).feedbackR = 0 := by
  have htake : ins.take (i+1) = ins.take i ++ [ins.get ⟨i, hi⟩] := by
    rw [List.take_succ, List.getElem?_eq_getElem hi]
    rfl
  rw [htake, hget, runBlock_append]
  refine ⟨?_, ?_, fun m f0 => ⟨rfl, rfl⟩⟩
  · simp [runBlock, processSampleStep]
  · simp [runBlock, processSampleStep]

/-- A concrete parameter snapshot for exercising the loop body. -/
def sampleParamsExample : SampleParams := ⟨1, 1, 1/2, 1/2, 1/2, 2⟩

/-- A trivial stateless stand-in for the external filter chain. -/
def idFilters : Unit → ℕ → ℚ → Unit × ℚ := fun s _ x => (s, x)

/-- Witness for C9: a one-sample block with dry inputs (1, 2) processed from
the prepared state. -/
theorem cross_feedback_write_topology_witness :
    (0 < ([(sampleParamsExample, (1 : ℚ), (2 : ℚ))] : List (SampleParams × ℚ × ℚ)).length)
    ∧ (([(sampleParamsExample, (1 : ℚ), (2 : ℚ))] : List (SampleParams × ℚ × ℚ)).get
        ⟨0, by norm_num⟩ = (sampleParamsExample, (1 : ℚ), (2 : ℚ)))
    ∧ ((runBlock idFilters (prepareState Unit 3 ())
          ([(sampleParamsExample, (1 : ℚ), (2 : ℚ))].take (0+1))).1.delayLineL
        = (runBlock idFilters (prepareState Unit 3 ())
            ([(sampleParamsExample, (1 : ℚ), (2 : ℚ))].take 0)).1.delayLineL.write
            (((1 : ℚ) + 2) * (1/2) * sampleParamsExample.panL
              + (runBlock idFilters (prepareState Unit 3 ())
                  ([(sampleParamsExample, (1 : ℚ), (2 : ℚ))].take 0)).1.feedbackR)
      ∧ (runBlock idFilters (prepareState Unit 3 ())
          ([(sampleParamsExample, (1 : ℚ), (2 : ℚ))].take (0+1))).1.delayLineR
        = (runBlock idFilters (prepareState Unit 3 ())
            ([(sampleParamsExample, (1 : ℚ), (2 : ℚ))].take 0)).1.delayLineR.write
            (((1 : ℚ) + 2) * (1/2) * sampleParamsExample.panR
              + (runBlock idFilters (prepareState Unit 3 ())
                  ([(sampleParamsExample, (1 : ℚ), (2 : ℚ))].take 0)).1.feedbackL)
      ∧ ∀ (m : ℤ) (f0 : Unit), (prepareState Unit m f0).feedbackL = 0
          ∧ (prepareState Unit m f0).feedbackR = 0) :=
  ⟨by norm_num, rfl,
   cross_feedback_write_topology idFilters (prepareState Unit 3 ())
     [(sampleParamsExample, (1 : ℚ), (2 : ℚ))] 0 sampleParamsExample 1 2
     (by norm_num) rfl⟩
